import Mathlib

set_option maxRecDepth 4000

/-!
# Azure Resource Graph datasource translation layer — verification

A shallow embedding of the translation layer of the Azure Resource Graph
datasource: the macro interpolator, the cloud endpoint resolver, the query
builder, the request constructor and the response normalizer, together with
proofs of the behavioural properties stated about them.

The repository snapshot carries the component's test suite
(`TestBuildingAzureResourceGraphQueries`, `TestAzureResourceGraphCreateRequest`,
`TestAddConfigData`, `TestGetAzurePortalUrl`, `TestUnmarshalResponse`) but not
the implementation file itself, so every operation below is modelled from the
specification's component contracts (and cross-checked against the expected
values of those tests).
-/

/-! ## JSON values

Response bodies of the remote service are JSON.  A shallow JSON value type;
parsing of raw text into this type is the standard library's concern in the
original code and is treated as an abstract collaborator here: a response body
carries both its raw text and the (optional) JSON value it parses to. -/

/-- A JSON value, as produced by parsing a response body. -/
inductive JsonValue where
  | null
  | boolean (b : Bool)
  | num (n : Int)
  | str (s : String)
  | arr (elems : List JsonValue)
  | obj (fields : List (String × JsonValue))

/-- First value bound to `key` in a JSON object's field list. -/
def lookupField (fields : List (String × JsonValue)) (key : String) : Option JsonValue :=
  match fields with
  | [] => none
  | (k, v) :: rest => if k = key then some v else lookupField rest key

/-- Decode an optional string-typed field: an absent field decodes to the zero
value `""`, a present string decodes to itself, and a present value of any
other type is a decode failure. -/
def strField : Option JsonValue → Option String
  | none => some ""
  | some (JsonValue.str s) => some s
  | some _ => none

/-- Decode an optional integer-typed field, `none` when absent. -/
def optIntField : Option JsonValue → Option (Option Int)
  | none => some none
  | some (JsonValue.num n) => some (some n)
  | some _ => none

/-- Decode an optional integer-typed field with zero value `0` when absent. -/
def intField : Option JsonValue → Option Int
  | none => some 0
  | some (JsonValue.num n) => some n
  | some _ => none

/-! ## Error envelope (§3 "ErrorEnvelope", §4.5 error path) -/

/-- One detail entry of the provider's error envelope: a code, a message, and
optionally a source line, a character position within that line, and the
offending token. -/
structure ErrorDetail where
  code : String
  message : String
  line : Option Int
  characterPositionInLine : Option Int
  token : String
deriving DecidableEq

/-- The provider's top-level error envelope: a code, a message and an ordered
sequence of detail entries. -/
structure ErrorEnvelope where
  code : String
  message : String
  details : List ErrorDetail
deriving DecidableEq

/-- Modelled from the spec: decoding of one `details` entry of the error
envelope (the implementation's JSON-unmarshalling of a detail object is not in
the snapshot).  Detail entries are heterogeneous: some carry only
code+message, others add positional information; both shapes decode. -/
def decodeDetail : JsonValue → Option ErrorDetail
  | JsonValue.obj fs => do
    let code ← strField (lookupField fs "code")
    let message ← strField (lookupField fs "message")
    let line ← optIntField (lookupField fs "line")
    let pos ← optIntField (lookupField fs "characterPositionInLine")
    let token ← strField (lookupField fs "token")
    some ⟨code, message, line, pos, token⟩
  | _ => none

/-- Decode the optional `details` array; an absent field is an empty list. -/
def decodeDetails : Option JsonValue → Option (List ErrorDetail)
  | none => some []
  | some (JsonValue.arr xs) => xs.mapM decodeDetail
  | some _ => none

/-- Modelled from the spec: decoding of the expected error envelope shape (the
implementation's JSON-unmarshalling is not in the snapshot).  The body must be
a top-level object containing a nested `error` object with string `code` and
`message`; anything else fails to decode and the caller falls back to the
raw-body diagnostic. -/
def decodeEnvelope : JsonValue → Option ErrorEnvelope
  | JsonValue.obj fs =>
    match lookupField fs "error" with
    | some (JsonValue.obj efs) =>
      match lookupField efs "code", lookupField efs "message" with
      | some (JsonValue.str c), some (JsonValue.str m) =>
        match decodeDetails (lookupField efs "details") with
        | some ds => some ⟨c, m, ds⟩
        | none => none
      | _, _ => none
    | _ => none
  | _ => none

/-! ## Diagnostic rendering (§4.5 error path, rules 1–4) -/

/-- Modelled from the spec: rendering of one detail entry (§4.5 rule 2).
No line information renders the bare message; a line without a character
position renders `code: line L, "token"`; a line with a character position
renders `code: line L, pos P, "token"`. -/
def renderDetail (d : ErrorDetail) : String :=
  match d.line with
  | none => d.message
  | some l =>
    match d.characterPositionInLine with
    | none => d.code ++ ": line " ++ toString l ++ ", \"" ++ d.token ++ "\""
    | some p =>
      d.code ++ ": line " ++ toString l ++ ", pos " ++ toString p ++ ", \"" ++ d.token ++ "\""

/-- Each rendered detail entry on its own line, in input order. -/
def renderDetails : List ErrorDetail → String
  | [] => ""
  | d :: ds => "\n" ++ renderDetail d ++ renderDetails ds

/-- Modelled from the spec: composition of the final diagnostic (§4.5 rule 3):
the status line, then `code: message`, then — if details exist — a `Details:`
line followed by each rendered detail entry. -/
def renderEnvelope (status : String) (env : ErrorEnvelope) : String :=
  "request failed, status: " ++ status ++ "\n" ++ env.code ++ ": " ++ env.message ++
    (if env.details.isEmpty then "" else "\nDetails:" ++ renderDetails env.details)

/-- Modelled from the spec: the raw-body fallback diagnostic (§4.5 rule 4),
used whenever the body does not match the expected envelope shape. -/
def fallbackMessage (status raw : String) : String :=
  "request failed, status: " ++ status ++ ", body: " ++ raw

/-- A response body: its raw text, and the JSON value it parses to (`none`
when the text is not valid JSON).  The JSON parser itself is an external
collaborator; the pair abstracts its outcome. -/
structure ResponseBody where
  raw : String
  json : Option JsonValue

/-- Modelled from the spec: the complete error-path decoding.  A body that
parses to the expected envelope shape renders the structured multi-line
diagnostic; any other body — malformed JSON included — degrades to the
raw-body fallback. -/
def errorMessage (status : String) (body : ResponseBody) : String :=
  match body.json with
  | some j =>
    match decodeEnvelope j with
    | some env => renderEnvelope status env
    | none => fallbackMessage status body.raw
  | none => fallbackMessage status body.raw

/-! ## Success payload (§4.5 success path) -/

/-- One column descriptor of the provider's tabular payload. -/
structure ARGColumn where
  name : String
  colType : String

/-- The provider's column/row table. -/
structure ARGTable where
  columns : List ARGColumn
  rows : List (List JsonValue)

/-- The provider's success payload: counts plus the column/row table. -/
structure AzureResourceGraphResponse where
  totalRecords : Int
  count : Int
  data : ARGTable
  resultTruncated : String

/-- The zero value of the success payload, returned alongside every error. -/
def emptyResponse : AzureResourceGraphResponse :=
  ⟨0, 0, ⟨[], []⟩, ""⟩

/-- Decode one column descriptor. -/
def decodeColumn : JsonValue → Option ARGColumn
  | JsonValue.obj fs => do
    let n ← strField (lookupField fs "name")
    let t ← strField (lookupField fs "type")
    some ⟨n, t⟩
  | _ => none

/-- Decode the optional `columns` array. -/
def decodeColumns : Option JsonValue → Option (List ARGColumn)
  | none => some []
  | some (JsonValue.arr cs) => cs.mapM decodeColumn
  | some _ => none

/-- Decode the optional `rows` array of arrays. -/
def decodeRows : Option JsonValue → Option (List (List JsonValue))
  | none => some []
  | some (JsonValue.arr rs) =>
    rs.mapM (fun r => match r with | JsonValue.arr cells => some cells | _ => none)
  | some _ => none

/-- Decode the optional `data` object holding columns and rows. -/
def decodeTable : Option JsonValue → Option ARGTable
  | none => some ⟨[], []⟩
  | some (JsonValue.obj fs) => do
    let cols ← decodeColumns (lookupField fs "columns")
    let rows ← decodeRows (lookupField fs "rows")
    some ⟨cols, rows⟩
  | some _ => none

/-- Modelled from the spec: decoding of the provider's success payload (the
implementation's JSON-unmarshalling is not in the snapshot). -/
def decodeARGResponse : JsonValue → Option AzureResourceGraphResponse
  | JsonValue.obj fs => do
    let tot ← intField (lookupField fs "totalRecords")
    let cnt ← intField (lookupField fs "count")
    let tbl ← decodeTable (lookupField fs "data")
    let trunc ← strField (lookupField fs "resultTruncated")
    some ⟨tot, cnt, tbl, trunc⟩
  | _ => none

/-- Modelled from the spec: the Response Normalizer's `unmarshalResponse`
(only its test, `TestUnmarshalResponse`, is in the snapshot).  Two paths keyed
on the HTTP status: a 2xx response decodes the tabular payload; any other
status yields the zero-value payload together with the formatted error
diagnostic of `errorMessage`. -/
def unmarshalResponse (statusCode : Nat) (status : String) (body : ResponseBody) :
    AzureResourceGraphResponse × Option String :=
  if statusCode / 100 = 2 then
    match body.json with
    | some j =>
      match decodeARGResponse j with
      | some r => (r, none)
      | none => (emptyResponse, some "failed to unmarshal the response body")
    | none => (emptyResponse, some "failed to unmarshal the response body")
  else
    (emptyResponse, some (errorMessage status body))

/-- `true` when the body parses as JSON and matches the expected envelope
shape. -/
def decodesToEnvelope (body : ResponseBody) : Bool :=
  match body.json with
  | some j => (decodeEnvelope j).isSome
  | none => false

/-! ## Statement-side vocabulary for the error-path claims -/

/-- Lines joined by a single newline, the shape in which the diagnostic format
is specified. -/
def joinLines : List String → String
  | [] => ""
  | [l] => l
  | l :: ls => l ++ "\n" ++ joinLines ls

/-- The per-entry detail line exactly as the specification states it: an entry
with no line renders as its message, an entry with a line but no character
position renders as `code: line L, "token"`, and an entry with both renders as
`code: line L, pos P, "token"`. -/
def detailLineSpec (d : ErrorDetail) : String :=
  match d.line, d.characterPositionInLine with
  | none, _ => d.message
  | some l, none => d.code ++ ": line " ++ toString l ++ ", \"" ++ d.token ++ "\""
  | some l, some p =>
    d.code ++ ": line " ++ toString l ++ ", pos " ++ toString p ++ ", \"" ++ d.token ++ "\""

/-! ## Error-path lemmas -/

/-- The statement-side detail line coincides with the renderer's. -/
theorem detailLineSpec_eq_renderDetail (d : ErrorDetail) : detailLineSpec d = renderDetail d := by
  unfold detailLineSpec renderDetail
  cases d.line <;> cases d.characterPositionInLine <;> rfl

/-- Joining a header line with rendered detail lines is the renderer's
newline-prefixed concatenation. -/
theorem joinLines_cons_renderDetails (x : String) (ds : List ErrorDetail) :
    joinLines (x :: ds.map renderDetail) = x ++ renderDetails ds := by
  induction ds generalizing x with
  | nil =>
    show x = x ++ ""
    apply String.ext
    simp [String.data_append]
  | cons d ds ih =>
    show x ++ "\n" ++ joinLines (renderDetail d :: ds.map renderDetail) = x ++ renderDetails (d :: ds)
    rw [ih (renderDetail d)]
    show x ++ "\n" ++ (renderDetail d ++ renderDetails ds) =
      x ++ ("\n" ++ renderDetail d ++ renderDetails ds)
    apply String.ext
    simp [String.data_append]

/-! ## Claim theorems: error path -/

/-- Claim C1: for every error response whose body is a JSON object with a
nested `error` object carrying `code`, `message` and an array of `details`,
`unmarshalResponse` produces exactly the diagnostic
`request failed, status: <status line>`, then `<code>: <message>`, then a
`Details:` line, then one line per detail entry in input order, each formatted
per the per-entry rules of `detailLineSpec`. -/
theorem unmarshalResponse_envelope_format
    (statusCode : Nat) (status : String) (body : ResponseBody) (j : JsonValue)
    (env : ErrorEnvelope)
    (hstatus : statusCode / 100 ≠ 2)
    (hjson : body.json = some j)
    (hdec : decodeEnvelope j = some env)
    (hne : env.details ≠ []) :
    (unmarshalResponse statusCode status body).2 =
      some (joinLines (("request failed, status: " ++ status) ::
        (env.code ++ ": " ++ env.message) :: "Details:" :: env.details.map detailLineSpec)) := by
  unfold unmarshalResponse
  rw [if_neg hstatus]
  simp only [errorMessage, hjson, hdec]
  congr 1
  unfold renderEnvelope
  rw [if_neg (by simpa [List.isEmpty_iff] using hne)]
  rw [show env.details.map detailLineSpec = env.details.map renderDetail from
    List.map_congr_left (fun d _ => detailLineSpec_eq_renderDetail d)]
  show "request failed, status: " ++ status ++ "\n" ++ env.code ++ ": " ++ env.message ++
      ("\nDetails:" ++ renderDetails env.details) =
    ("request failed, status: " ++ status) ++ "\n" ++
      joinLines ((env.code ++ ": " ++ env.message) :: "Details:" :: env.details.map renderDetail)
  rw [show joinLines ((env.code ++ ": " ++ env.message) :: "Details:" :: env.details.map renderDetail) =
        (env.code ++ ": " ++ env.message) ++ "\n" ++
          joinLines ("Details:" :: env.details.map renderDetail) from rfl]
  rw [joinLines_cons_renderDetails "Details:" env.details]
  apply String.ext
  simp [String.data_append]

/-- The `bodyWithLines` error envelope exercised by `TestUnmarshalResponse`,
as a parsed JSON value. -/
def sampleEnvelopeJson : JsonValue :=
  JsonValue.obj [("error", JsonValue.obj
    [ ("code", JsonValue.str "BadRequest"),
      ("message", JsonValue.str "Please provide below info when asking for support: timestamp = 2021-06-04T05:09:13.1870573Z, correlationId = f1c5d97f-26db-4bdc-b023-1f0a862004db."),
      ("details", JsonValue.arr
        [ JsonValue.obj
            [ ("code", JsonValue.str "InvalidQuery"),
              ("message", JsonValue.str "Query is invalid. Please refer to the documentation for the Azure Resource Graph service and fix the error before retrying.") ],
          JsonValue.obj
            [ ("code", JsonValue.str "ParserFailure"),
              ("message", JsonValue.str "ParserFailure"),
              ("line", JsonValue.num 2),
              ("token", JsonValue.str "<") ],
          JsonValue.obj
            [ ("code", JsonValue.str "ParserFailure"),
              ("message", JsonValue.str "ParserFailure"),
              ("line", JsonValue.num 4),
              ("characterPositionInLine", JsonValue.num 23),
              ("token", JsonValue.str "<") ] ]) ])]

/-- The same envelope as a decoded value. -/
def sampleEnvelope : ErrorEnvelope :=
  ⟨"BadRequest",
   "Please provide below info when asking for support: timestamp = 2021-06-04T05:09:13.1870573Z, correlationId = f1c5d97f-26db-4bdc-b023-1f0a862004db.",
   [ ⟨"InvalidQuery",
      "Query is invalid. Please refer to the documentation for the Azure Resource Graph service and fix the error before retrying.",
      none, none, ""⟩,
     ⟨"ParserFailure", "ParserFailure", some 2, none, "<"⟩,
     ⟨"ParserFailure", "ParserFailure", some 4, some 23, "<"⟩ ]⟩

/-- A 400 response carrying the sample envelope. -/
def sampleEnvelopeBody : ResponseBody :=
  ⟨"", some sampleEnvelopeJson⟩

/-- Witness for C1: the sample envelope renders to exactly the diagnostic the
test suite expects. -/
theorem unmarshalResponse_envelope_format_witness :
    (unmarshalResponse 400 "400 Bad Request" sampleEnvelopeBody).2 =
      some "request failed, status: 400 Bad Request\nBadRequest: Please provide below info when asking for support: timestamp = 2021-06-04T05:09:13.1870573Z, correlationId = f1c5d97f-26db-4bdc-b023-1f0a862004db.\nDetails:\nQuery is invalid. Please refer to the documentation for the Azure Resource Graph service and fix the error before retrying.\nParserFailure: line 2, \"<\"\nParserFailure: line 4, pos 23, \"<\"" := by
  have h := unmarshalResponse_envelope_format 400 "400 Bad Request" sampleEnvelopeBody
    sampleEnvelopeJson sampleEnvelope (by decide) rfl rfl (by decide)
  rw [h]
  rfl

/-- Claim C2: a body that parses as JSON but does not match the expected
`error{code,message}` shape yields exactly the fallback diagnostic
`request failed, status: <status line>, body: <raw body>`; the raw body text
appears verbatim (as a suffix) and the diagnostic is non-empty. -/
theorem unmarshalResponse_unexpected_shape
    (statusCode : Nat) (status : String) (body : ResponseBody) (j : JsonValue)
    (hstatus : statusCode / 100 ≠ 2)
    (hjson : body.json = some j)
    (hdec : decodeEnvelope j = none) :
    (unmarshalResponse statusCode status body).2 =
      some ("request failed, status: " ++ status ++ ", body: " ++ body.raw) ∧
    body.raw.data <:+ ("request failed, status: " ++ status ++ ", body: " ++ body.raw).data ∧
    ("request failed, status: " ++ status ++ ", body: " ++ body.raw) ≠ "" := by
  refine ⟨?_, ?_, ?_⟩
  · unfold unmarshalResponse
    rw [if_neg hstatus]
    simp only [errorMessage, hjson, hdec]
    rfl
  · refine ⟨("request failed, status: " ++ status ++ ", body: ").data, ?_⟩
    simp [String.data_append]
  · intro h
    have hlen := congrArg String.length h
    have h24 : ("request failed, status: " : String).length = 24 := rfl
    simp [String.length_append, h24] at hlen

/-- A 400 response whose body is JSON with `error` bound to a plain string
rather than the expected object, mirroring the `bodyUnexpected` case of
`TestUnmarshalResponse`. -/
def sampleWrongShapeBody : ResponseBody :=
  ⟨"error is a plain string here",
   some (JsonValue.obj [("error", JsonValue.str "I m an expected field but of wrong type !")])⟩

/-- Witness for C2: the wrong-shape sample yields the raw-body fallback. -/
theorem unmarshalResponse_unexpected_shape_witness :
    (unmarshalResponse 400 "400 Bad Request" sampleWrongShapeBody).2 =
      some ("request failed, status: " ++ "400 Bad Request" ++ ", body: " ++
        sampleWrongShapeBody.raw) ∧
    sampleWrongShapeBody.raw.data <:+
      ("request failed, status: " ++ "400 Bad Request" ++ ", body: " ++
        sampleWrongShapeBody.raw).data ∧
    ("request failed, status: " ++ "400 Bad Request" ++ ", body: " ++
      sampleWrongShapeBody.raw) ≠ "" :=
  unmarshalResponse_unexpected_shape 400 "400 Bad Request" sampleWrongShapeBody
    (JsonValue.obj [("error", JsonValue.str "I m an expected field but of wrong type !")])
    (by decide) rfl rfl

/-- Claim C6: the error decoder is total — it is a function of the whole body
(malformed JSON included, modelled as a body whose parse result is `none`) and
on every non-success response whose body does not decode to the expected
envelope shape it returns the raw-body fallback string instead of failing. -/
theorem unmarshalResponse_total_fallback
    (statusCode : Nat) (status : String) (body : ResponseBody)
    (hstatus : statusCode / 100 ≠ 2)
    (hshape : decodesToEnvelope body = false) :
    (unmarshalResponse statusCode status body).2 =
      some ("request failed, status: " ++ status ++ ", body: " ++ body.raw) := by
  unfold unmarshalResponse
  rw [if_neg hstatus]
  unfold errorMessage
  revert hshape
  unfold decodesToEnvelope
  cases hb : body.json with
  | none => intro _; rfl
  | some j =>
    cases hd : decodeEnvelope j with
    | none => intro _; simp only [hd]; rfl
    | some env => intro hshape; simp [hd] at hshape

/-- Witness for C6: a body that is not valid JSON at all still produces the
fallback diagnostic. -/
theorem unmarshalResponse_total_fallback_witness :
    (unmarshalResponse 500 "500 Internal Server Error" (⟨"not json at all", none⟩ : ResponseBody)).2 =
      some ("request failed, status: " ++ "500 Internal Server Error" ++ ", body: " ++
        (⟨"not json at all", none⟩ : ResponseBody).raw) :=
  unmarshalResponse_total_fallback 500 "500 Internal Server Error" ⟨"not json at all", none⟩
    (by decide) rfl

/-- Claim C10: every non-success response yields the zero-value payload
together with an error; no populated result ever accompanies an error. -/
theorem unmarshalResponse_error_empty_result
    (statusCode : Nat) (status : String) (body : ResponseBody)
    (hstatus : statusCode / 100 ≠ 2) :
    (unmarshalResponse statusCode status body).1 = emptyResponse ∧
    ((unmarshalResponse statusCode status body).2).isSome = true := by
  unfold unmarshalResponse
  rw [if_neg hstatus]
  exact ⟨rfl, rfl⟩

/-- Witness for C10: a 404 response yields the empty payload and an error. -/
theorem unmarshalResponse_error_empty_result_witness :
    (unmarshalResponse 404 "404 Not Found" (⟨"missing", none⟩ : ResponseBody)).1 = emptyResponse ∧
    ((unmarshalResponse 404 "404 Not Found" (⟨"missing", none⟩ : ResponseBody)).2).isSome = true :=
  unmarshalResponse_error_empty_result 404 "404 Not Found" ⟨"missing", none⟩ (by decide)

/-! ## Macro Interpolator (§4.1)

The interpolator is a single-pass textual rewriter over the query text.  The
supported macro family's membership macro is written
`$__contains(field,v1,...,vN)` and expands to the provider-native membership
test `['field'] in (v1,...,vN)`; malformed argument lists and tokens that
merely resemble macro syntax are left as literal text. -/

/-- The membership macro's opening token, `$__contains(`. -/
def containsTok : List Char :=
  "$__contains(".data

/-- The single-quote character used around the field name in the expansion. -/
def squote : Char :=
  Char.ofNat 39

/-- Split off everything up to the first closing parenthesis: `some (a, b)`
when the input is `a ++ ')' :: b` with no `')'` in `a`, `none` when the input
has no closing parenthesis. -/
def breakAtRParen : List Char → Option (List Char × List Char)
  | [] => none
  | c :: cs =>
    if c = ')' then some ([], cs)
    else
      match breakAtRParen cs with
      | none => none
      | some (args, rest) => some (c :: args, rest)

/-- The remainder returned by `breakAtRParen` is strictly shorter than the
input. -/
theorem breakAtRParen_length {l a b} (h : breakAtRParen l = some (a, b)) :
    b.length < l.length := by
  induction l generalizing a b with
  | nil => simp [breakAtRParen] at h
  | cons c cs ih =>
    by_cases hc : c = ')'
    · simp [breakAtRParen, hc] at h
      rw [← h.2]
      simp only [List.length_cons]
      omega
    · simp only [breakAtRParen, if_neg hc] at h
      cases hbr : breakAtRParen cs with
      | none => rw [hbr] at h; simp at h
      | some p =>
        obtain ⟨a2, b2⟩ := p
        rw [hbr] at h
        simp at h
        have hlen := ih hbr
        rw [← h.2]
        simp only [List.length_cons]
        omega

/-- Split the argument list of a macro invocation on commas. -/
def splitComma : List Char → List (List Char)
  | [] => [[]]
  | c :: cs =>
    if c = ',' then [] :: splitComma cs
    else (splitComma cs).modifyHead (fun l => c :: l)

/-- Join argument fragments with commas (inverse of `splitComma` on
comma-free fragments). -/
def joinArgs : List (List Char) → List Char
  | [] => []
  | [v] => v
  | v :: vs => v ++ ',' :: joinArgs vs

/-- Everything after the opening bracket of the membership expansion. -/
def expansionTail (field : List Char) (values : List (List Char)) : List Char :=
  squote :: (field ++ squote :: ']' :: (" in (".data ++ joinArgs values ++ [')']))

/-- The expansion of the membership macro: `['field'] in (v1,...,vN)`. -/
def containsExpansion (field : List Char) (values : List (List Char)) : List Char :=
  '[' :: expansionTail field values

/-- Expand one parsed macro argument list: with a field and at least one value
the membership expansion is produced; a malformed argument list is left as the
literal original text (fail-soft policy). -/
def expandContainsArgs (args : List Char) : List Char :=
  match splitComma args with
  | field :: v :: vs => containsExpansion field (v :: vs)
  | _ => containsTok ++ args ++ [')']

/-- Modelled from the spec: the Macro Interpolator's single-pass scan of the
query text (its implementation, the datasource's KQL macro engine, is not in
the snapshot).  At each position, if the text starts with `$__contains(` and a
closing parenthesis follows, the invocation is replaced by its expansion and
scanning resumes after it (expansions are not rescanned: macros do not nest);
otherwise one character is copied.  An invocation with no closing parenthesis
is copied as literal text. -/
def interpChars (cs : List Char) : List Char :=
  match cs with
  | [] => []
  | c :: rest =>
    if containsTok.isPrefixOf (c :: rest) then
      match hbr : breakAtRParen ((c :: rest).drop containsTok.length) with
      | some (args, rest2) => expandContainsArgs args ++ interpChars rest2
      | none => c :: interpChars rest
    else c :: interpChars rest
termination_by cs.length
decreasing_by
  · have h1 := breakAtRParen_length hbr
    rw [List.length_drop] at h1
    simp only [List.length_cons] at h1 ⊢
    omega
  · simp
  · simp

/-- A time range: absolute start and end instants. -/
structure TimeRange where
  rangeFrom : Int
  rangeTo : Int
deriving DecidableEq

/-- Modelled from the spec: the Macro Interpolator's contract (§4.1) — given
query text and a time range, replace every recognized macro invocation by its
expansion.  The membership macro's expansion does not consult the time range;
the parameter records the contract's shape. -/
def interpolate (_tr : TimeRange) (query : String) : String :=
  ⟨interpChars query.data⟩

/-! ## Interpolator lemmas -/

/-- `breakAtRParen` recovers the split around the first closing parenthesis. -/
theorem breakAtRParen_append (args rest : List Char) (h : ')' ∉ args) :
    breakAtRParen (args ++ ')' :: rest) = some (args, rest) := by
  induction args with
  | nil => simp [breakAtRParen]
  | cons c cs ih =>
    have hc : c ≠ ')' := fun hh => h (hh ▸ List.mem_cons_self c cs)
    have hcs : ')' ∉ cs := fun hm => h (List.mem_cons_of_mem c hm)
    simp [breakAtRParen, hc, ih hcs]

/-- One scan step at a recognized macro invocation. -/
theorem interpChars_cons_token {c : Char} {rest args rest2 : List Char}
    (hcond : containsTok.isPrefixOf (c :: rest) = true)
    (hb : breakAtRParen (List.drop containsTok.length (c :: rest)) = some (args, rest2)) :
    interpChars (c :: rest) = expandContainsArgs args ++ interpChars rest2 := by
  rw [interpChars]
  simp only [hcond, if_true]
  split
  · rename_i a1 r1 heq
    rw [hb] at heq
    cases heq
    rfl
  · rename_i heq
    rw [hb] at heq
    cases heq

/-- Scanning text that starts with a complete macro invocation expands it and
resumes after the closing parenthesis. -/
theorem interpChars_token_step (args rest : List Char) (h : ')' ∉ args) :
    interpChars (containsTok ++ (args ++ ')' :: rest)) =
      expandContainsArgs args ++ interpChars rest := by
  rw [show containsTok ++ (args ++ ')' :: rest) =
        '$' :: ("__contains(".data ++ (args ++ ')' :: rest)) from rfl]
  apply interpChars_cons_token
  · rw [ List.isPrefixOf_iff_prefix]
    exact ⟨args ++ ')' :: rest, rfl⟩
  · rw [show ('$' :: ("__contains(".data ++ (args ++ ')' :: rest))) =
          containsTok ++ (args ++ ')' :: rest) from rfl]
    rw [List.drop_left containsTok (args ++ ')' :: rest)]
    exact breakAtRParen_append args rest h

/-- The macro token cannot start at a character other than `'$'`. -/
theorem containsTok_head_mismatch {c : Char} (rest : List Char) (h : c ≠ '$') :
    containsTok.isPrefixOf (c :: rest) = false := by
  have h2 : ('$' == c) = false := beq_eq_false_iff_ne.mpr (fun hh => h hh.symm)
  show (('$' :: "__contains(".data).isPrefixOf (c :: rest)) = false
  simp [List.isPrefixOf, h2]

/-- Text containing no occurrence of the macro token scans to itself. -/
theorem interpChars_of_no_token (cs : List Char) (h : ¬ containsTok <:+: cs) :
    interpChars cs = cs := by
  induction cs with
  | nil => rw [interpChars]
  | cons c rest ih =>
    have hpre : containsTok.isPrefixOf (c :: rest) = false := by
      cases hb : containsTok.isPrefixOf (c :: rest) with
      | false => rfl
      | true =>
        exfalso
        apply h
        have hpfx : containsTok <+: c :: rest := ( List.isPrefixOf_iff_prefix).mp hb
        obtain ⟨t, ht⟩ := hpfx
        exact ⟨[], t, by simpa using ht⟩
    rw [interpChars]
    simp only [hpre, Bool.false_eq_true, if_false]
    have hrest : ¬ containsTok <:+: rest := by
      intro hinf
      obtain ⟨s, t, hst⟩ := hinf
      exact h ⟨c :: s, t, by rw [← hst]; rfl⟩
    rw [ih hrest]

/-- Text without a dollar sign contains no macro token. -/
theorem no_token_of_no_dollar {cs : List Char} (h : '$' ∉ cs) :
    ¬ containsTok <:+: cs := by
  intro hinf
  obtain ⟨s, t, hst⟩ := hinf
  apply h
  rw [← hst]
  have hdol : '$' ∈ containsTok := by decide
  exact List.mem_append.mpr (Or.inl (List.mem_append.mpr (Or.inr hdol)))

/-- Scanning passes over a dollar-free leading segment unchanged. -/
theorem interpChars_append (pre rest : List Char) (h : ∀ c ∈ pre, c ≠ '$') :
    interpChars (pre ++ rest) = pre ++ interpChars rest := by
  induction pre with
  | nil => simp
  | cons c p ih =>
    have hc : c ≠ '$' := h c (List.mem_cons_self c p)
    have hpre := containsTok_head_mismatch (p ++ rest) hc
    show interpChars (c :: (p ++ rest)) = c :: (p ++ interpChars rest)
    rw [interpChars]
    simp only [hpre, Bool.false_eq_true, if_false]
    rw [ih (fun x hx => h x (List.mem_cons_of_mem c hx))]

/-- A comma-free fragment splits to itself. -/
theorem splitComma_no_comma (a : List Char) (h : ',' ∉ a) : splitComma a = [a] := by
  induction a with
  | nil => rfl
  | cons c cs ih =>
    have hc : c ≠ ',' := fun hh => h (hh ▸ List.mem_cons_self c cs)
    have hcs : ',' ∉ cs := fun hm => h (List.mem_cons_of_mem c hm)
    simp [splitComma, hc, ih hcs, List.modifyHead]

/-- Splitting past a comma-free fragment peels it off whole. -/
theorem splitComma_append (a rest : List Char) (h : ',' ∉ a) :
    splitComma (a ++ ',' :: rest) = a :: splitComma rest := by
  induction a with
  | nil => simp [splitComma]
  | cons c cs ih =>
    have hc : c ≠ ',' := fun hh => h (hh ▸ List.mem_cons_self c cs)
    have hcs : ',' ∉ cs := fun hm => h (List.mem_cons_of_mem c hm)
    simp [splitComma, hc, ih hcs, List.modifyHead]

/-- `splitComma` is a left inverse of `joinArgs` on nonempty lists of
comma-free fragments. -/
theorem splitComma_joinArgs (ls : List (List Char)) (hne : ls ≠ [])
    (h : ∀ l ∈ ls, ',' ∉ l) : splitComma (joinArgs ls) = ls := by
  induction ls with
  | nil => exact absurd rfl hne
  | cons a ls ih =>
    cases ls with
    | nil => exact splitComma_no_comma a (h a (List.mem_cons_self _ _))
    | cons b ls2 =>
      show splitComma (a ++ ',' :: joinArgs (b :: ls2)) = a :: b :: ls2
      rw [splitComma_append a _ (h a (List.mem_cons_self _ _))]
      rw [ih (by simp) (fun l hl => h l (List.mem_cons_of_mem a hl))]

/-- A character of a joined argument list is a comma or comes from one of the
fragments. -/
theorem mem_joinArgs {x : Char} {ls : List (List Char)} (hx : x ∈ joinArgs ls) :
    x = ',' ∨ ∃ l ∈ ls, x ∈ l := by
  induction ls with
  | nil => simp [joinArgs] at hx
  | cons a ls ih =>
    cases ls with
    | nil => exact Or.inr ⟨a, List.mem_cons_self _ _, hx⟩
    | cons b ls2 =>
      rw [show joinArgs (a :: b :: ls2) = a ++ ',' :: joinArgs (b :: ls2) from rfl] at hx
      rcases List.mem_append.mp hx with h1 | h2
      · exact Or.inr ⟨a, List.mem_cons_self _ _, h1⟩
      · rcases List.mem_cons.mp h2 with h3 | h4
        · exact Or.inl h3
        · rcases ih h4 with h5 | ⟨l, hl, hxl⟩
          · exact Or.inl h5
          · exact Or.inr ⟨l, List.mem_cons_of_mem _ hl, hxl⟩

/-- Expanding a well-formed joined argument list produces the membership
expansion for its field and values. -/
theorem expandContainsArgs_joinArgs (F : List Char) (VS : List (List Char))
    (hne : VS ≠ []) (hcomma : ∀ l ∈ F :: VS, ',' ∉ l) :
    expandContainsArgs (joinArgs (F :: VS)) = containsExpansion F VS := by
  unfold expandContainsArgs
  rw [splitComma_joinArgs (F :: VS) (by simp) hcomma]
  cases VS with
  | nil => exact absurd rfl hne
  | cons v vs => rfl

/-- A character of the expansion's tail is one of its fixed punctuation
characters, a character of the field, or a character of one of the values. -/
theorem mem_expansionTail {x : Char} {F : List Char} {VS : List (List Char)}
    (hx : x ∈ expansionTail F VS) :
    x ∈ ("] in (),".data ++ [squote]) ∨ x ∈ F ∨ ∃ l ∈ VS, x ∈ l := by
  unfold expansionTail at hx
  rcases List.mem_cons.mp hx with h1 | hx
  · exact Or.inl (by rw [h1]; decide)
  rcases List.mem_append.mp hx with hF | hx
  · exact Or.inr (Or.inl hF)
  rcases List.mem_cons.mp hx with h1 | hx
  · exact Or.inl (by rw [h1]; decide)
  rcases List.mem_cons.mp hx with h1 | hx
  · exact Or.inl (by rw [h1]; decide)
  rcases List.mem_append.mp hx with hx | hx
  · rcases List.mem_append.mp hx with h1 | hj
    · refine Or.inl ?_
      have hsub : (" in (".data : List Char) ⊆ "] in (),".data ++ [squote] := by decide
      exact hsub h1
    · rcases mem_joinArgs hj with h1 | ⟨l, hl, hxl⟩
      · exact Or.inl (by rw [h1]; decide)
      · exact Or.inr (Or.inr ⟨l, hl, hxl⟩)
  · exact Or.inl (by rw [List.mem_singleton.mp hx]; decide)

/-! ## Claim theorems: Macro Interpolator -/

/-- Claim C8: interpolation is a no-op on text containing no remaining macro
syntax (in particular on already-interpolated text), for any time range;
tokens that merely resemble macro syntax are left untouched and no error is
raised (the function is total). -/
theorem interpolate_no_op_on_interpolated (tr : TimeRange) (query : String)
    (h : ¬ containsTok <:+: query.data) :
    interpolate tr query = query := by
  unfold interpolate
  apply String.ext
  exact interpChars_of_no_token query.data h

/-- Witness for C8: a query containing text that merely resembles macro
syntax (`$__contain(...)`, `$__containsX`) is returned unchanged. -/
theorem interpolate_no_op_on_interpolated_witness :
    (¬ containsTok <:+: ("resources | where name in (x) and $__contain(y) $__containsX" : String).data) ∧
    interpolate ⟨0, 2040⟩ "resources | where name in (x) and $__contain(y) $__containsX" =
      "resources | where name in (x) and $__contain(y) $__containsX" :=
  ⟨by decide, interpolate_no_op_on_interpolated ⟨0, 2040⟩ _ (by decide)⟩

/-- The single-quote character as a string, for stating expansions. -/
def squoteStr : String :=
  ⟨[squote]⟩

/-- Values joined by commas, the positional pass-through of macro arguments. -/
def joinComma : List String → String
  | [] => ""
  | [v] => v
  | v :: vs => v ++ "," ++ joinComma vs

/-- The literal text of a membership macro invocation
`$__contains(field,v1,...,vN)`. -/
def containsCall (field : String) (values : List String) : String :=
  ⟨containsTok ++ joinArgs (field.data :: values.map String.data) ++ [')']⟩

/-- `joinComma` agrees with the character-level `joinArgs`. -/
theorem joinComma_data (vs : List String) :
    (joinComma vs).data = joinArgs (vs.map String.data) := by
  induction vs with
  | nil => rfl
  | cons v vs ih =>
    cases vs with
    | nil => rfl
    | cons w ws =>
      show (v ++ "," ++ joinComma (w :: ws)).data =
        v.data ++ ',' :: joinArgs ((w :: ws).map String.data)
      rw [← ih]
      simp [String.data_append]

/-- Claim C3: a query containing a `$__contains(field,v1,...,vN)` invocation
interpolates to the text with that invocation replaced by the single
membership expression `['field'] in (v1,...,vN)` — all N values positionally
in input order, the field copied verbatim — the output contains exactly one
membership expression (counted by its opening bracket), and the macro token
is absent from the output. -/
theorem interpolate_contains_macro
    (tr : TimeRange) (pre post field : String) (values : List String)
    (hvne : values ≠ [])
    (hpre : ∀ c ∈ pre.data, c ≠ '$' ∧ c ≠ '[')
    (hpost : ∀ c ∈ post.data, c ≠ '$' ∧ c ≠ '[')
    (hfield : ∀ c ∈ field.data, c ≠ '$' ∧ c ≠ '[' ∧ c ≠ ')' ∧ c ≠ ',')
    (hvalues : ∀ v ∈ values, ∀ c ∈ v.data, c ≠ '$' ∧ c ≠ '[' ∧ c ≠ ')' ∧ c ≠ ',') :
    interpolate tr (pre ++ containsCall field values ++ post) =
      pre ++ ("[" ++ squoteStr ++ field ++ squoteStr ++ "] in (" ++ joinComma values ++ ")") ++ post ∧
    ((interpolate tr (pre ++ containsCall field values ++ post)).data).count '[' = 1 ∧
    ¬ containsTok <:+: (interpolate tr (pre ++ containsCall field values ++ post)).data := by
  have hVSne : values.map String.data ≠ [] := by simpa using hvne
  have hVSprops : ∀ l ∈ values.map String.data, ∀ c ∈ l,
      c ≠ '$' ∧ c ≠ '[' ∧ c ≠ ')' ∧ c ≠ ',' := by
    intro l hl c hc
    obtain ⟨v, hv, hvl⟩ := List.mem_map.mp hl
    subst hvl
    exact hvalues v hv c hc
  have hcommaAll : ∀ l ∈ field.data :: values.map String.data, ',' ∉ l := by
    intro l hl
    rcases List.mem_cons.mp hl with h1 | h2
    · subst h1
      exact fun hc => (hfield ',' hc).2.2.2 rfl
    · exact fun hc => (hVSprops l h2 ',' hc).2.2.2 rfl
  have hparenArgs : ')' ∉ joinArgs (field.data :: values.map String.data) := by
    intro hc
    rcases mem_joinArgs hc with h1 | ⟨l, hl, hxl⟩
    · exact absurd h1 (by decide)
    · rcases List.mem_cons.mp hl with h2 | h2
      · subst h2
        exact (hfield ')' hxl).2.2.1 rfl
      · exact (hVSprops l h2 ')' hxl).2.2.1 rfl
  have hpredollar : ∀ c ∈ pre.data, c ≠ '$' := fun c h => (hpre c h).1
  have hpostdollar : '$' ∉ post.data := fun h => (hpost '$' h).1 rfl
  have hdata : (pre ++ containsCall field values ++ post).data =
      pre.data ++ (containsTok ++
        (joinArgs (field.data :: values.map String.data) ++ ')' :: post.data)) := by
    simp [String.data_append, containsCall, List.append_assoc]
  have hkey : interpChars ((pre ++ containsCall field values ++ post).data) =
      pre.data ++
        (containsExpansion field.data (values.map String.data) ++ post.data) := by
    rw [hdata]
    rw [interpChars_append _ _ hpredollar]
    rw [interpChars_token_step _ _ hparenArgs]
    rw [interpChars_of_no_token post.data (no_token_of_no_dollar hpostdollar)]
    rw [expandContainsArgs_joinArgs _ _ hVSne hcommaAll]
  refine ⟨?_, ?_, ?_⟩
  · apply String.ext
    show interpChars ((pre ++ containsCall field values ++ post).data) = _
    rw [hkey]
    show pre.data ++
        (containsExpansion field.data (values.map String.data) ++ post.data) =
      (pre ++ ("[" ++ squoteStr ++ field ++ squoteStr ++ "] in (" ++ joinComma values ++ ")") ++ post).data
    simp [String.data_append, joinComma_data, squoteStr, containsExpansion, expansionTail,
      List.append_assoc]
  · show (interpChars ((pre ++ containsCall field values ++ post).data)).count '[' = 1
    rw [hkey]
    rw [List.count_append, List.count_append]
    have h1 : pre.data.count '[' = 0 :=
      List.count_eq_zero.mpr (fun hm => (hpre '[' hm).2 rfl)
    have h2 : post.data.count '[' = 0 :=
      List.count_eq_zero.mpr (fun hm => (hpost '[' hm).2 rfl)
    have h3 : (containsExpansion field.data (values.map String.data)).count '[' = 1 := by
      show (('[' :: expansionTail field.data (values.map String.data)).count '[') = 1
      rw [List.count_cons]
      have h4 : (expansionTail field.data (values.map String.data)).count '[' = 0 := by
        refine List.count_eq_zero.mpr (fun hm => ?_)
        rcases mem_expansionTail hm with hp | hFm | ⟨l, hl, hxl⟩
        · exact absurd hp (by decide)
        · exact (hfield '[' hFm).2.1 rfl
        · exact (hVSprops l hl '[' hxl).2.1 rfl
      rw [h4]
      simp
    rw [h1, h2, h3]
  · show ¬ containsTok <:+: interpChars ((pre ++ containsCall field values ++ post).data)
    rw [hkey]
    apply no_token_of_no_dollar
    intro hm
    rcases List.mem_append.mp hm with h1 | h2
    · exact (hpre '$' h1).1 rfl
    · rcases List.mem_append.mp h2 with h3 | h4
      · rcases List.mem_cons.mp h3 with h5 | h6
        · exact absurd h5 (by decide)
        · rcases mem_expansionTail h6 with hp | hFm | ⟨l, hl, hxl⟩
          · exact absurd hp (by decide)
          · exact (hfield '$' hFm).1 rfl
          · exact (hVSprops l hl '$' hxl).1 rfl
      · exact (hpost '$' h4).1 rfl

/-- Witness for C3: the test suite's query
`resources | where $__contains(name,'res1','res2')` interpolates to
`resources | where ['name'] in ('res1','res2')`, with exactly one membership
expression and no remaining macro token. -/
theorem interpolate_contains_macro_witness :
    interpolate ⟨1521118800, 1521120840⟩
        ("resources | where " ++
          containsCall "name" [squoteStr ++ "res1" ++ squoteStr, squoteStr ++ "res2" ++ squoteStr] ++ "") =
      "resources | where " ++
        ("[" ++ squoteStr ++ "name" ++ squoteStr ++ "] in (" ++
          joinComma [squoteStr ++ "res1" ++ squoteStr, squoteStr ++ "res2" ++ squoteStr] ++ ")") ++ "" ∧
    ((interpolate ⟨1521118800, 1521120840⟩
        ("resources | where " ++
          containsCall "name" [squoteStr ++ "res1" ++ squoteStr, squoteStr ++ "res2" ++ squoteStr] ++ "")).data).count '[' = 1 ∧
    ¬ containsTok <:+: (interpolate ⟨1521118800, 1521120840⟩
        ("resources | where " ++
          containsCall "name" [squoteStr ++ "res1" ++ squoteStr, squoteStr ++ "res2" ++ squoteStr] ++ "")).data :=
  interpolate_contains_macro ⟨1521118800, 1521120840⟩ "resources | where " "" "name"
    [squoteStr ++ "res1" ++ squoteStr, squoteStr ++ "res2" ++ squoteStr]
    (by decide) (by decide) (by decide) (by decide) (by decide)

/-! ## Query Builder (§4.3) -/

/-- One inbound raw query: a correlation identifier, the original JSON payload
it was parsed from (retained verbatim), and the parse result of that payload —
the query text and result-format hint (`none` when the payload is malformed;
the JSON unmarshaller is an external collaborator abstracted by the pair). -/
structure ARGQueryModel where
  query : String
  resultFormat : String
deriving DecidableEq

/-- An inbound data query of a batch. -/
structure DataQuery where
  refID : String
  json : String
  model : Option ARGQueryModel
deriving DecidableEq

/-- The interpolated query produced per raw query: same correlation identifier
and result-format, the original JSON verbatim, the final query text, and an
(unresolved) dispatch URL. -/
structure AzureResourceGraphQuery where
  refID : String
  resultFormat : String
  url : String
  json : String
  interpolatedQuery : String
deriving DecidableEq

/-- Modelled from the spec: assembly of one raw query (§4.3; `buildQueries` is
not in the snapshot).  A malformed definition fails with its correlation
identifier; otherwise the macro interpolator runs on the query text and the
identifier, result-format and JSON payload are propagated unchanged. -/
def buildQuery (tr : TimeRange) (q : DataQuery) : Except String AzureResourceGraphQuery :=
  match q.model with
  | none =>
    Except.error ("failed to decode the Azure Resource Graph query object from JSON: " ++ q.refID)
  | some m =>
    Except.ok ⟨q.refID, m.resultFormat, "", q.json, interpolate tr m.query⟩

/-- Modelled from the spec: the Query Builder (§4.3) — one interpolated query
per raw query, in input order, aborting the whole batch on the first
malformed definition (no partial batches). -/
def buildQueries (tr : TimeRange) (queries : List DataQuery) :
    Except String (List AzureResourceGraphQuery) :=
  match queries with
  | [] => Except.ok []
  | q :: qs =>
    match buildQuery tr q with
    | Except.error e => Except.error e
    | Except.ok o =>
      match buildQueries tr qs with
      | Except.error e => Except.error e
      | Except.ok os => Except.ok (o :: os)

/-- Claim C5: when the Query Builder succeeds on a batch of M raw queries it
returns exactly M interpolated queries in input order, each preserving its
correlation identifier, its result-format and its original JSON payload
verbatim (and carrying the interpolation of its query text); otherwise the
whole operation fails. -/
theorem buildQueries_batch (tr : TimeRange) (qs : List DataQuery)
    (out : List AzureResourceGraphQuery)
    (h : buildQueries tr qs = Except.ok out) :
    out.length = qs.length ∧
    List.Forall₂ (fun q o => ∃ m, q.model = some m ∧
      o.refID = q.refID ∧ o.resultFormat = m.resultFormat ∧ o.json = q.json ∧
      o.interpolatedQuery = interpolate tr m.query) qs out := by
  have hfa : List.Forall₂ (fun q o => ∃ m, q.model = some m ∧
      o.refID = q.refID ∧ o.resultFormat = m.resultFormat ∧ o.json = q.json ∧
      o.interpolatedQuery = interpolate tr m.query) qs out := by
    induction qs generalizing out with
    | nil =>
      rw [buildQueries] at h
      cases h
      exact List.Forall₂.nil
    | cons q qs ih =>
      rw [buildQueries] at h
      cases hq : buildQuery tr q with
      | error e => rw [hq] at h; cases h
      | ok o =>
        rw [hq] at h
        cases hqs : buildQueries tr qs with
        | error e => rw [hqs] at h; cases h
        | ok os =>
          rw [hqs] at h
          cases h
          refine List.Forall₂.cons ?_ (ih os hqs)
          cases hm : q.model with
          | none => rw [buildQuery, hm] at hq; cases hq
          | some m =>
            rw [buildQuery, hm] at hq
            cases hq
            exact ⟨m, rfl, rfl, rfl, rfl, rfl⟩
  exact ⟨(List.Forall₂.length_eq hfa).symm, hfa⟩

/-- The query text of the test suite's interpolation case. -/
def sampleQueryText : String :=
  "resources | where " ++
    containsCall "name" [squoteStr ++ "res1" ++ squoteStr, squoteStr ++ "res2" ++ squoteStr]

/-- The test suite's raw query: correlation identifier `A`, result format
`table`, and its original JSON payload. -/
def sampleDataQuery : DataQuery :=
  ⟨"A", "sample-original-json-payload", some ⟨sampleQueryText, "table"⟩⟩

/-- Witness for C5: a one-query batch builds to one interpolated query
preserving identifier, result-format and JSON payload. -/
theorem buildQueries_batch_witness :
    ([(⟨"A", "table", "", "sample-original-json-payload",
        interpolate ⟨1521118800, 1521120840⟩ sampleQueryText⟩ : AzureResourceGraphQuery)]).length =
      [sampleDataQuery].length ∧
    List.Forall₂ (fun q o => ∃ m, q.model = some m ∧
      o.refID = q.refID ∧ o.resultFormat = m.resultFormat ∧ o.json = q.json ∧
      o.interpolatedQuery = interpolate ⟨1521118800, 1521120840⟩ m.query)
      [sampleDataQuery]
      [(⟨"A", "table", "", "sample-original-json-payload",
        interpolate ⟨1521118800, 1521120840⟩ sampleQueryText⟩ : AzureResourceGraphQuery)] :=
  buildQueries_batch ⟨1521118800, 1521120840⟩ [sampleDataQuery]
    [⟨"A", "table", "", "sample-original-json-payload",
      interpolate ⟨1521118800, 1521120840⟩ sampleQueryText⟩] rfl

/-! ## Cloud Endpoint Resolver (§4.2) -/

/-- The Azure public cloud identifier. -/
def AzurePublic : String := "AzureCloud"

/-- The Azure China cloud identifier. -/
def AzureChina : String := "AzureChinaCloud"

/-- The Azure US Government cloud identifier. -/
def AzureUSGovernment : String := "AzureUSGovernmentCloud"

/-- The Azure Germany cloud identifier. -/
def AzureGermany : String := "AzureGermanCloud"

/-- Modelled from the spec: the portal-URL side of the Cloud Endpoint Resolver
(`getAzurePortalUrl`; only its test, `TestGetAzurePortalUrl`, is in the
snapshot).  Exactly four cloud identifiers are recognized; any other input
fails with an unsupported-cloud error instead of defaulting. -/
def getAzurePortalUrl (cloudName : String) : Except String String :=
  if cloudName = AzurePublic then Except.ok "https://portal.azure.com"
  else if cloudName = AzureChina then Except.ok "https://portal.azure.cn"
  else if cloudName = AzureUSGovernment then Except.ok "https://portal.azure.us"
  else if cloudName = AzureGermany then Except.ok "https://portal.microsoftazure.de"
  else Except.error "the cloud not supported"

/-- Claim C4: the resolver recognizes exactly the four cloud identifiers,
returning for each its documented distinct portal URL, and fails with the
unsupported-cloud error on every identifier outside the closed set. -/
theorem getAzurePortalUrl_closed_set :
    getAzurePortalUrl AzurePublic = Except.ok "https://portal.azure.com" ∧
    getAzurePortalUrl AzureChina = Except.ok "https://portal.azure.cn" ∧
    getAzurePortalUrl AzureUSGovernment = Except.ok "https://portal.azure.us" ∧
    getAzurePortalUrl AzureGermany = Except.ok "https://portal.microsoftazure.de" ∧
    ∀ cloudName : String, cloudName ≠ AzurePublic → cloudName ≠ AzureChina →
      cloudName ≠ AzureUSGovernment → cloudName ≠ AzureGermany →
      getAzurePortalUrl cloudName = Except.error "the cloud not supported" := by
  refine ⟨rfl, rfl, rfl, rfl, ?_⟩
  intro c h1 h2 h3 h4
  unfold getAzurePortalUrl
  rw [if_neg h1, if_neg h2, if_neg h3, if_neg h4]

/-- Witness for C4: an identifier outside the closed set is rejected. -/
theorem getAzurePortalUrl_closed_set_witness :
    getAzurePortalUrl "AzureAtlantisCloud" = Except.error "the cloud not supported" :=
  getAzurePortalUrl_closed_set.2.2.2.2 "AzureAtlantisCloud"
    (by decide) (by decide) (by decide) (by decide)

/-! ## Request Constructor (§4.4) -/

/-- A constructed HTTP request: method, target URL, headers and the untouched
serialized body. -/
structure HttpRequest where
  method : String
  url : String
  headers : List (String × String)
  body : String
deriving DecidableEq

/-- The product-identifying user agent, `Grafana/<build version>`. -/
def userAgent (buildVersion : String) : String :=
  "Grafana/" ++ buildVersion

/-- Modelled from the spec: the Request Constructor (`createRequest`; only its
test, `TestAzureResourceGraphCreateRequest`, is in the snapshot).  The target
URL is the base URL with trailing-path normalization, the headers carry the
JSON content type and the product-identifying user agent, and the body passes
through untouched. -/
def createRequest (buildVersion : String) (reqBody : String) (url : String) : HttpRequest :=
  ⟨"POST",
   if url.data.getLast? = some '/' then url else url ++ "/",
   [("Content-Type", "application/json"), ("User-Agent", userAgent buildVersion)],
   reqBody⟩

/-- First header value bound to `key`. -/
def headerValue (req : HttpRequest) (key : String) : Option String :=
  req.headers.lookup key

/-- Claim C7: for every base URL and body, the constructed request carries a
`Content-Type: application/json` header and a non-empty product-identifying
user-agent header, its target URL is the trailing-path-normalized base URL
(it always ends in `/`; base `http://ds` yields target `http://ds/`). -/
theorem createRequest_request_shape (buildVersion reqBody url : String) :
    headerValue (createRequest buildVersion reqBody url) "Content-Type" =
      some "application/json" ∧
    (∃ ua, headerValue (createRequest buildVersion reqBody url) "User-Agent" = some ua ∧
      ua ≠ "") ∧
    ((createRequest buildVersion reqBody url).url).data.getLast? = some '/' ∧
    (createRequest buildVersion reqBody "http://ds").url = "http://ds/" := by
  refine ⟨rfl, ⟨userAgent buildVersion, rfl, ?_⟩, ?_, rfl⟩
  · intro h
    have hlen := congrArg String.length h
    have h8 : ("Grafana/" : String).length = 8 := rfl
    simp [userAgent, String.length_append, h8] at hlen
  · show (if url.data.getLast? = some '/' then url else url ++ "/").data.getLast? = some '/'
    by_cases hc : url.data.getLast? = some '/'
    · rw [if_pos hc]
      exact hc
    · rw [if_neg hc]
      rw [show (url ++ "/").data = url.data ++ ['/'] from by simp [String.data_append]]
      simp

/-! ## Portal deep links on the result frame (§4.5 success path) -/

/-- A data link annotation attached to a result field. -/
structure DataLink where
  title : String
  targetBlank : Bool
  url : String
deriving DecidableEq

/-- One field (column) of a result frame: its name, its data values and its
attached link annotations. -/
structure FrameField where
  name : String
  values : List Int
  links : List DataLink
deriving DecidableEq

/-- A result data frame. -/
structure DataFrame where
  name : String
  fields : List FrameField
deriving DecidableEq

/-- Modelled from the spec: `addConfigLinks` (only its test, `TestAddConfigData`,
is in the snapshot) — attach to every field of the frame the single portal
deep-link annotation "View in Azure Portal" (opening in a new tab) pointing at
the given portal URL. -/
def addConfigLinks (frame : DataFrame) (dl : String) : DataFrame :=
  ⟨frame.name,
   frame.fields.map (fun f => ⟨f.name, f.values, [⟨"View in Azure Portal", true, dl⟩]⟩)⟩

/-- Claim C9: after `addConfigLinks`, every field carries exactly one data
link — title "View in Azure Portal", target-blank set, URL the given portal
URL — while its data values and its other properties are unchanged (fieldwise,
in order). -/
theorem addConfigLinks_per_field (frame : DataFrame) (dl : String) :
    (addConfigLinks frame dl).name = frame.name ∧
    List.Forall₂ (fun f g =>
        g.links = [⟨"View in Azure Portal", true, dl⟩] ∧
        g.values = f.values ∧ g.name = f.name)
      frame.fields (addConfigLinks frame dl).fields := by
  refine ⟨rfl, ?_⟩
  have hgen : ∀ fs : List FrameField,
      List.Forall₂ (fun f g =>
          g.links = [⟨"View in Azure Portal", true, dl⟩] ∧
          g.values = f.values ∧ g.name = f.name)
        fs (fs.map (fun f =>
          (⟨f.name, f.values, [⟨"View in Azure Portal", true, dl⟩]⟩ : FrameField))) := by
    intro fs
    induction fs with
    | nil => exact List.Forall₂.nil
    | cons f fs ih => exact List.Forall₂.cons ⟨rfl, rfl, rfl⟩ ih
  exact hgen frame.fields

/-- Witness for C7: the test suite's request against base `http://ds` carries
the JSON content type, the non-empty user agent, and the normalized URL. -/
theorem createRequest_request_shape_witness :
    headerValue (createRequest "" "serialized-body" "http://ds") "Content-Type" =
      some "application/json" ∧
    (∃ ua, headerValue (createRequest "" "serialized-body" "http://ds") "User-Agent" = some ua ∧
      ua ≠ "") ∧
    ((createRequest "" "serialized-body" "http://ds").url).data.getLast? = some '/' ∧
    (createRequest "" "serialized-body" "http://ds").url = "http://ds/" :=
  createRequest_request_shape "" "serialized-body" "http://ds"

/-- Witness for C9: a one-field frame gains exactly the portal link while its
values are untouched. -/
theorem addConfigLinks_per_field_witness :
    (addConfigLinks ⟨"results", [⟨"subscriptionId", [1, 2, 3], []⟩]⟩ "http://ds").name =
      (⟨"results", [⟨"subscriptionId", [1, 2, 3], []⟩]⟩ : DataFrame).name ∧
    List.Forall₂ (fun f g =>
        g.links = [⟨"View in Azure Portal", true, "http://ds"⟩] ∧
        g.values = f.values ∧ g.name = f.name)
      (⟨"results", [⟨"subscriptionId", [1, 2, 3], []⟩]⟩ : DataFrame).fields
      (addConfigLinks ⟨"results", [⟨"subscriptionId", [1, 2, 3], []⟩]⟩ "http://ds").fields :=
  addConfigLinks_per_field ⟨"results", [⟨"subscriptionId", [1, 2, 3], []⟩]⟩ "http://ds"
